import Mathlib

/-!
Shallow embedding of two fragments of the LumixEngine repository:
the editor-side asset compiler (src/editor/asset_compiler.cpp) and the
entity universe store (src/universe/universe.h), together with theorems
settling the frozen claims about them.

Engine utilities that are only declared here (crc32, PathUtils::getExtension,
the file system, Path::getHash) are abstracted as function parameters, so the
theorems quantify over every possible implementation of them.
-/

namespace LumixSpec

/-- Paths are modelled as strings.  A default-constructed `Lumix::Path` is
invalid; the empty string plays that role. -/
abbrev Pth := String

/-- `Path::isValid`: a path is valid when it is non-empty. -/
def Pth.isValid (p : Pth) : Bool := !(p == "")

/-- A `Lumix::Resource` as far as the asset compiler observes it: an identity
and the path returned by `Resource::getPath`. -/
structure Resource where
  id : Nat
  path : Pth
deriving DecidableEq, Repr

/-- `AssetCompilerImpl::CompileEntry`: a path and a resource pointer.  The
null pointer is `none`.  A default-constructed entry has an invalid (empty)
path and a null resource. -/
structure CompileEntry where
  path : Pth
  resource : Option Resource
deriving DecidableEq, Repr

/-- The default-constructed `CompileEntry{}` of the source. -/
def CompileEntry.default : CompileEntry := ⟨"", none⟩

/-- The file system as the asset compiler queries it through
`PlatformInterface`: existence and last-modified stamps. -/
structure FileSystem where
  fileExists : String → Bool
  lastModified : String → Nat

/-- The engine utilities the asset compiler calls but whose code is outside
this excerpt; the theorems hold for every choice of them. -/
structure Params where
  crc32 : String → Nat
  getExtension : String → String
  fs : FileSystem
  hashOf : String → Nat
  metaPathOf : String → String

/-- `HashMap<u32, IPlugin*>` lookup, on an association list keyed by the
crc32 hash; plugins are identified by a `Nat`. -/
def lookupPlugin : List (Nat × Nat) → Nat → Option Nat
  | [], _ => none
  | (k, v) :: rest, h => if k = h then some v else lookupPlugin rest h

/-- `HashMap<u32, IPlugin*>::insert`: replace the binding when the key is
present, otherwise add it. -/
def insertPlugin : List (Nat × Nat) → Nat → Nat → List (Nat × Nat)
  | [], k, v => [(k, v)]
  | (k2, v2) :: rest, k, v =>
      if k2 = k then (k2, v) :: rest else (k2, v2) :: insertPlugin rest k v

/-- The mutable state of `AssetCompilerImpl` that the claims concern:
the two `Array<CompileEntry>` lists (front of the Lean list = index 0 of
the array, pushes go at the end), the plugin map, the semaphore count and
the task finished flag. -/
structure CompilerState where
  toCompile : List CompileEntry
  compiled : List CompileEntry
  plugins : List (Nat × Nat)
  semaphore : Nat
  finished : Bool
deriving DecidableEq, Repr

/-- State after `AssetCompilerImpl`'s constructor ran: empty lists, empty
plugin map, semaphore initialized to 0, task running. -/
def initialState : CompilerState :=
  { toCompile := [], compiled := [], plugins := [], semaphore := 0, finished := false }

/-- The compiled output path `.lumix/assets/<path-hash>.res` built by
`onBeforeLoad`. -/
def dstPath (P : Params) (res : Resource) : String :=
  ".lumix/assets/" ++ toString (P.hashOf res.path) ++ ".res"

/-- `AssetCompilerImpl::onBeforeLoad` (asset_compiler.cpp lines 166-186):
returns whether the load was intercepted, together with the new state.
The entry emplaced on `m_to_compile` gets its `resource` field set; its
`path` stays default-constructed (invalid). -/
def onBeforeLoadFn (P : Params) (st : CompilerState) (res : Resource) :
    Bool × CompilerState :=
  if !(P.fs.fileExists res.path) then (false, st)
  else
    let dst := dstPath P res
    let meta := P.metaPathOf res.path
    if !(P.fs.fileExists dst)
        || decide (P.fs.lastModified dst < P.fs.lastModified res.path)
        || decide (P.fs.lastModified dst < P.fs.lastModified meta) then
      (true, { st with toCompile := st.toCompile ++ [⟨"", some res⟩],
                       semaphore := st.semaphore + 1 })
    else (false, st)

/-- `AssetCompilerImpl::onFileChanged` (lines 93-112): ignore paths under
`.lumix`; ignore extensions with no registered plugin; otherwise emplace an
entry with the path and a null resource and signal the semaphore. -/
def onFileChangedFn (P : Params) (st : CompilerState) (path : String) :
    CompilerState :=
  if ".lumix".isPrefixOf path then st
  else
    let ext := P.getExtension path
    if (lookupPlugin st.plugins (P.crc32 ext)).isNone then st
    else { st with toCompile := st.toCompile ++ [⟨path, none⟩],
                   semaphore := st.semaphore + 1 }

/-- `AssetCompilerImpl::addPlugin` (lines 224-233): insert the plugin under
the crc32 hash of every extension in the list. -/
def addPluginFn (P : Params) (st : CompilerState) (plugin : Nat)
    (extensions : List String) : CompilerState :=
  { st with plugins :=
      extensions.foldl (fun m e => insertPlugin m (P.crc32 e) plugin) st.plugins }

/-- `AssetCompilerImpl::removePlugin` (lines 214-219): the body is
`ASSERT(false)` and nothing else; the returned flag records that the
assertion fired, and the state is untouched. -/
def removePluginFn (st : CompilerState) (plugin : Nat) : Bool × CompilerState :=
  (true, st)

/-- The take at the head of `AssetCompilerTask::task`'s loop body
(lines 253-258): read `m_to_compile.back()` and pop it.  On an empty array
`back()` is undefined; the total embedding returns the default entry there. -/
def workerTake (st : CompilerState) : CompileEntry × CompilerState :=
  (st.toCompile.getLast?.getD CompileEntry.default,
   { st with toCompile := st.toCompile.dropLast })

/-- One iteration of `AssetCompilerTask::task`'s loop (lines 251-269):
wait on the semaphore, take the back entry of `m_to_compile`, compile it and
push it onto `m_compiled` when it names a resource or a valid path. -/
def workerStepFn (st : CompilerState) : CompilerState :=
  let t := workerTake st
  let e := t.1
  let st1 := { t.2 with semaphore := t.2.semaphore - 1 }
  match e.resource with
  | some _ => { st1 with compiled := st1.compiled ++ [e] }
  | none =>
      if e.path.isValid then { st1 with compiled := st1.compiled ++ [e] }
      else st1

/-- `AssetCompilerImpl::popCompiledResource` (lines 188-195): return the
default entry when `m_compiled` is empty, else pop and return its back. -/
def popCompiledResource (st : CompilerState) : CompileEntry × CompilerState :=
  match st.compiled.getLast? with
  | none => (CompileEntry.default, st)
  | some e => (e, { st with compiled := st.compiled.dropLast })

/-- The externally visible calls `update` makes while draining. -/
inductive UpdateEffect where
  | continueLoad (r : Resource)
  | reload (p : Pth)
deriving DecidableEq, Repr

/-- The effect `update` performs for one popped entry. -/
def effectOf (e : CompileEntry) : UpdateEffect :=
  match e.resource with
  | some r => UpdateEffect.continueLoad r
  | none => UpdateEffect.reload e.path

/-- The loop of `AssetCompilerImpl::update` (lines 197-211) acting on the
`m_compiled` list: pop the back entry; `continueLoad` it when its resource is
non-null, `reload` it when its path is valid, otherwise break. -/
def updateDrain (l : List CompileEntry) : List UpdateEffect × List CompileEntry :=
  match hl : l.getLast? with
  | none => ([], l)
  | some e =>
    match e.resource with
    | some r =>
        let rest := updateDrain l.dropLast
        (UpdateEffect.continueLoad r :: rest.1, rest.2)
    | none =>
        if e.path.isValid then
          let rest := updateDrain l.dropLast
          (UpdateEffect.reload e.path :: rest.1, rest.2)
        else ([], l.dropLast)
termination_by l.length
decreasing_by
  all_goals
    simp only [List.length_dropLast]
    have hne : l ≠ [] := by
      intro h
      rw [h] at hl
      simp at hl
    have hpos : 0 < l.length := List.length_pos.mpr hne
    omega

/-- `AssetCompilerImpl::update` on the compiler state: the effects performed,
in order, and the resulting state. -/
def updateFn (st : CompilerState) : List UpdateEffect × CompilerState :=
  let r := updateDrain st.compiled
  (r.1, { st with compiled := r.2 })

/-- The consumption order of the worker task on the contents of
`m_to_compile`: repeatedly apply the take of `AssetCompilerTask::task`
(back, then pop) until the list is exhausted. -/
def consumeOrder (l : List CompileEntry) : List CompileEntry :=
  match hl : l.getLast? with
  | none => []
  | some e => e :: consumeOrder l.dropLast
termination_by l.length
decreasing_by
  simp only [List.length_dropLast]
  have hne : l ≠ [] := by
    intro h
    rw [h] at hl
    simp at hl
  have hpos : 0 < l.length := List.length_pos.mpr hne
  omega

/-- One interleaved step of the compiler: a producer call, a worker-loop
iteration (enabled while the task is not finished and the semaphore is
positive), or an editor `update`. -/
inductive Step (P : Params) : CompilerState → CompilerState → Prop where
  | fileChanged (st : CompilerState) (path : String) :
      Step P st (onFileChangedFn P st path)
  | beforeLoad (st : CompilerState) (res : Resource) :
      Step P st (onBeforeLoadFn P st res).2
  | addPlugin (st : CompilerState) (plugin : Nat) (exts : List String) :
      Step P st (addPluginFn P st plugin exts)
  | removePlugin (st : CompilerState) (plugin : Nat) :
      Step P st (removePluginFn st plugin).2
  | worker (st : CompilerState) :
      st.finished = false → 0 < st.semaphore → Step P st (workerStepFn st)
  | update (st : CompilerState) :
      Step P st (updateFn st).2

/-- A compiler state reachable from the constructed state by interleaved
steps. -/
def Reachable (P : Params) (st : CompilerState) : Prop :=
  Relation.ReflTransGen (Step P) initialState st

/-! ### Lock traces

The locking structure of each member function, read off the source: the
sequence of spin-mutex acquisitions and releases (`MT::SpinLock` scopes) and
of accesses to the three shared collections. -/

/-- The three shared collections of `AssetCompilerImpl`. -/
inductive Collection where
  | toCompileList
  | compiledList
  | pluginMap
deriving DecidableEq, Repr

/-- The three spin mutexes of `AssetCompilerImpl`. -/
inductive Mtx where
  | toCompileMutex
  | compiledMutex
  | pluginMutex
deriving DecidableEq, Repr

/-- The mutex the spec assigns to each collection. -/
def mutexOf : Collection → Mtx
  | Collection.toCompileList => Mtx.toCompileMutex
  | Collection.compiledList => Mtx.compiledMutex
  | Collection.pluginMap => Mtx.pluginMutex

/-- An event of a lock trace: acquire or release a mutex, or touch a shared
collection. -/
inductive Ev where
  | lock (m : Mtx)
  | unlock (m : Mtx)
  | access (c : Collection)
deriving DecidableEq, Repr

/-- Every `access` in the trace happens while the mutex of its collection is
among the held ones. -/
def guardedFrom (held : List Mtx) : List Ev → Bool
  | [] => true
  | Ev.lock m :: rest => guardedFrom (m :: held) rest
  | Ev.unlock m :: rest => guardedFrom (held.erase m) rest
  | Ev.access c :: rest => held.contains (mutexOf c) && guardedFrom held rest

/-- A trace is guarded when, starting with no mutex held, every collection
access happens under that collection's mutex. -/
def guarded (t : List Ev) : Bool := guardedFrom [] t

/-- Lock trace of `onFileChanged` (lines 93-112), on the path that reaches
both collections: plugin lookup under `m_plugin_mutex`, then the emplace on
`m_to_compile` under `m_to_compile_mutex`. -/
def onFileChangedTrace : List Ev :=
  [Ev.lock Mtx.pluginMutex, Ev.access Collection.pluginMap,
   Ev.unlock Mtx.pluginMutex,
   Ev.lock Mtx.toCompileMutex, Ev.access Collection.toCompileList,
   Ev.unlock Mtx.toCompileMutex]

/-- Lock trace of `onBeforeLoad` (lines 166-186), on the path that emplaces:
the emplace on `m_to_compile` under `m_to_compile_mutex`. -/
def onBeforeLoadTrace : List Ev :=
  [Ev.lock Mtx.toCompileMutex, Ev.access Collection.toCompileList,
   Ev.unlock Mtx.toCompileMutex]

/-- Lock trace of one iteration of the `addPlugin` loop (lines 224-233):
the insert into `m_plugins` under `m_plugin_mutex`. -/
def addPluginTrace : List Ev :=
  [Ev.lock Mtx.pluginMutex, Ev.access Collection.pluginMap,
   Ev.unlock Mtx.pluginMutex]

/-- Lock trace of `compile` (lines 147-163): the plugin lookup under
`m_plugin_mutex`. -/
def compileTrace : List Ev :=
  [Ev.lock Mtx.pluginMutex, Ev.access Collection.pluginMap,
   Ev.unlock Mtx.pluginMutex]

/-- Lock trace of one iteration of `AssetCompilerTask::task` (lines 249-271),
on the path that pushes a compiled entry: take from `m_to_compile` under
`m_to_compile_mutex`, push onto `m_compiled` under `m_compiled_mutex`. -/
def workerTrace : List Ev :=
  [Ev.lock Mtx.toCompileMutex, Ev.access Collection.toCompileList,
   Ev.unlock Mtx.toCompileMutex,
   Ev.lock Mtx.compiledMutex, Ev.access Collection.compiledList,
   Ev.unlock Mtx.compiledMutex]

/-- Lock trace of one `update` iteration through `popCompiledResource`
(lines 188-211): the pop from `m_compiled` under `m_compiled_mutex`. -/
def updateTrace : List Ev :=
  [Ev.lock Mtx.compiledMutex, Ev.access Collection.compiledList,
   Ev.unlock Mtx.compiledMutex]

/-- Lock trace of the destructor (lines 81-90): line 84 runs
`m_to_compile.emplace().resource = nullptr;` with no `MT::SpinLock` in
scope, so the access to `m_to_compile` is performed with no mutex held. -/
def destructorTrace : List Ev :=
  [Ev.access Collection.toCompileList]

/-! ### getMeta -/

/-- The meta-file side of the file system for `getMeta`: the bytes of the
file at a path, when it can be opened for reading, and whether the read
call itself succeeds (an I/O failure the embedding keeps abstract). -/
structure MetaFS where
  contents : String → Option (List Nat)
  readOk : Bool

/-- `AssetCompilerImpl::getMeta` (lines 115-128): open `<dir><basename>.meta`;
on failure return -1; otherwise read `min(size, file size)` bytes and return
that count on success, -1 on a failed read.  The bytes placed in the caller's
buffer are returned alongside the count. -/
def getMetaFn (mfs : MetaFS) (metaPathOf : String → String) (res : Pth)
    (size : Int) : Int × List Nat :=
  match mfs.contents (metaPathOf res) with
  | none => (-1, [])
  | some data =>
    let read_size : Int := min size (Int.ofNat data.length)
    if mfs.readOk then (read_size, data.take read_size.toNat)
    else (-1, [])

/-! ### Universe (src/universe/universe.h)

Only the header is part of the excerpt; `createEntity` and `destroyEntity`
are declared there but their bodies live outside it. -/

/-- `Lux::Vec3`, with integer components standing in for the floats, whose
arithmetic plays no role in the claims. -/
structure Vec3 where
  x : Int
  y : Int
  z : Int
deriving DecidableEq, Repr

/-- `Lux::Quat`, likewise with integer components. -/
structure Quat where
  x : Int
  y : Int
  z : Int
  w : Int
deriving DecidableEq, Repr

/-- `Lux::Universe`: parallel position and rotation arrays indexed by entity
slot, plus the free-slot list. -/
structure Universe where
  m_positions : List Vec3
  m_rotations : List Quat
  m_free_slots : List Nat
deriving DecidableEq, Repr

/-- Modelled from the spec: `Universe::createEntity` is declared in
universe.h but defined outside the excerpt; the spec describes the store as
"positions, rotations, free-slot recycling".  When the free-slot list is
non-empty, pop a recorded slot and reuse it, overwriting that slot's position
and rotation with defaults and growing neither array; otherwise append a
fresh slot at the end of both arrays. -/
def createEntity (u : Universe) : Nat × Universe :=
  match u.m_free_slots with
  | [] =>
      (u.m_positions.length,
       { u with m_positions := u.m_positions ++ [⟨0, 0, 0⟩],
                m_rotations := u.m_rotations ++ [⟨0, 0, 0, 1⟩] })
  | s :: rest =>
      (s,
       { u with m_positions := u.m_positions.set s ⟨0, 0, 0⟩,
                m_rotations := u.m_rotations.set s ⟨0, 0, 0, 1⟩,
                m_free_slots := rest })

/-- Modelled from the spec: `Universe::destroyEntity` is declared in
universe.h but defined outside the excerpt; per the spec's "free-slot
recycling", it records the destroyed entity's index on the free-slot list,
leaving the position and rotation arrays as they are. -/
def destroyEntity (u : Universe) (index : Nat) : Universe :=
  { u with m_free_slots := index :: u.m_free_slots }

/-- `Universe::getPosition` (universe.h line 41): `return m_positions[index];`
with no bounds check; the total embedding demands the in-bounds proof.  The
method mutates nothing, which the embedding shows by also returning the
universe. -/
def getPosition (u : Universe) (index : Nat)
    (h : index < u.m_positions.length) : Vec3 × Universe :=
  (u.m_positions.get ⟨index, h⟩, u)

/-- `Universe::getRotation` (universe.h line 42): `return m_rotations[index];`
with no bounds check; the total embedding demands the in-bounds proof. -/
def getRotation (u : Universe) (index : Nat)
    (h : index < u.m_rotations.length) : Quat × Universe :=
  (u.m_rotations.get ⟨index, h⟩, u)

/-! ### Theorems -/

/-- C1: `onBeforeLoad` enqueues the resource (with a null path, as the
emplaced entry's path stays default) and returns true exactly when the source
file exists and the compiled output `.lumix/assets/<path-hash>.res` is
missing or older than the source or older than the source's `.meta` file;
otherwise it returns false and changes nothing. -/
theorem onBeforeLoad_compiles_iff_stale (P : Params) (st : CompilerState)
    (res : Resource) :
    onBeforeLoadFn P st res =
      if P.fs.fileExists res.path = true ∧
         (P.fs.fileExists (dstPath P res) = false ∨
          P.fs.lastModified (dstPath P res) < P.fs.lastModified res.path ∨
          P.fs.lastModified (dstPath P res) <
            P.fs.lastModified (P.metaPathOf res.path))
      then (true, { st with toCompile := st.toCompile ++ [⟨"", some res⟩],
                            semaphore := st.semaphore + 1 })
      else (false, st) := by
  unfold onBeforeLoadFn
  by_cases h1 : P.fs.fileExists res.path
  · by_cases h2 : P.fs.fileExists (dstPath P res)
    · by_cases h3 : P.fs.lastModified (dstPath P res) < P.fs.lastModified res.path
      · simp [h1, h2, h3]
      · by_cases h4 : P.fs.lastModified (dstPath P res) <
            P.fs.lastModified (P.metaPathOf res.path)
        · simp [h1, h2, h3, h4]
        · simp [h1, h2, h3, h4]
    · simp [h1, h2]
  · simp [h1]

/-- C2: `onFileChanged` appends exactly one entry carrying the path and a
null resource and signals the semaphore exactly when the path does not start
with `.lumix` and a plugin is registered under the crc32 of its extension;
every other path leaves the state unchanged. -/
theorem onFileChanged_enqueues_iff_known_extension (P : Params)
    (st : CompilerState) (path : String) :
    onFileChangedFn P st path =
      if ".lumix".isPrefixOf path = false ∧
         (lookupPlugin st.plugins (P.crc32 (P.getExtension path))).isSome = true
      then { st with toCompile := st.toCompile ++ [⟨path, none⟩],
                     semaphore := st.semaphore + 1 }
      else st := by
  unfold onFileChangedFn
  by_cases h1 : ".lumix".isPrefixOf path
  · simp [h1]
  · by_cases h2 :
      (lookupPlugin st.plugins (P.crc32 (P.getExtension path))).isSome
    · simp [h1, h2, Option.isNone_iff_eq_none]
      intro hnone
      rw [hnone] at h2
      simp at h2
    · have hnone : lookupPlugin st.plugins (P.crc32 (P.getExtension path)) = none :=
        Option.not_isSome_iff_eq_none.mp h2
      simp [h1, h2, hnone]

/-- The worker's repeated back-and-pop visits a list in reverse order. -/
theorem consumeOrder_eq_reverse (l : List CompileEntry) :
    consumeOrder l = l.reverse := by
  induction l using List.reverseRecOn with
  | nil => simp [consumeOrder]
  | append_singleton xs x ih =>
      unfold consumeOrder
      split
      · next heq =>
          rw [List.getLast?_concat] at heq
          simp at heq
      · next e heq =>
          rw [List.getLast?_concat] at heq
          injection heq with heq
          subst heq
          rw [List.dropLast_concat, ih]
          simp

/-- A file system where every file exists with modification stamp 0. -/
def cFS : FileSystem := ⟨fun _ => true, fun _ => 0⟩

/-- Concrete engine parameters used to exhibit behaviours at concrete
inputs. -/
def cParams : Params :=
  ⟨fun _ => 0, fun _ => "tex", cFS, fun _ => 0, fun s => s ++ ".meta"⟩

/-- A compiler state with a single plugin registered under hash 0. -/
def cStPlugins : CompilerState :=
  { initialState with plugins := [(0, 1)] }

/-- C3, counterexample: two file-change notifications enqueue the entries for
`a.tex` then `b.tex` in that order at the back of `m_to_compile`, yet the
worker's take consumes the entry for `b.tex` first, so the consumption order
is not first-in-first-out. -/
theorem toCompile_not_fifo :
    (onFileChangedFn cParams (onFileChangedFn cParams cStPlugins "a.tex")
        "b.tex").toCompile =
      [⟨"a.tex", none⟩, ⟨"b.tex", none⟩] ∧
    (workerTake (onFileChangedFn cParams
        (onFileChangedFn cParams cStPlugins "a.tex") "b.tex")).1 =
      ⟨"b.tex", none⟩ ∧
    (⟨"b.tex", none⟩ : CompileEntry) ≠ ⟨"a.tex", none⟩ := by
  refine ⟨by decide, by decide, by decide⟩

/-- C3, amended: the to-compile collection behaves as a stack, not a queue:
the worker always consumes the most recently enqueued entry first, and
repeated consumption visits the pending entries in reverse enqueue order. -/
theorem toCompile_consume_lifo (st : CompilerState) (l : List CompileEntry)
    (e : CompileEntry) (h : st.toCompile = l ++ [e]) :
    (workerTake st).1 = e ∧ (workerTake st).2.toCompile = l ∧
    consumeOrder st.toCompile = st.toCompile.reverse := by
  refine ⟨?_, ?_, consumeOrder_eq_reverse st.toCompile⟩
  · unfold workerTake
    rw [h, List.getLast?_concat]
    rfl
  · unfold workerTake
    simp only [h, List.dropLast_concat]

/-- Witness for the amended C3 at a concrete state holding two pending
entries. -/
theorem toCompile_consume_lifo_witness :
    (workerTake { initialState with
        toCompile := [⟨"a.tex", none⟩, ⟨"b.tex", none⟩] }).1 =
      ⟨"b.tex", none⟩ ∧
    (workerTake { initialState with
        toCompile := [⟨"a.tex", none⟩, ⟨"b.tex", none⟩] }).2.toCompile =
      [⟨"a.tex", none⟩] ∧
    consumeOrder ({ initialState with
        toCompile := [⟨"a.tex", none⟩, ⟨"b.tex", none⟩] } :
          CompilerState).toCompile =
      ({ initialState with
        toCompile := [⟨"a.tex", none⟩, ⟨"b.tex", none⟩] } :
          CompilerState).toCompile.reverse :=
  toCompile_consume_lifo
    { initialState with toCompile := [⟨"a.tex", none⟩, ⟨"b.tex", none⟩] }
    [⟨"a.tex", none⟩] ⟨"b.tex", none⟩ rfl

/-- The state reached by registering one plugin for the extension of
`a.tex` and then receiving `n` change notifications for `a.tex`. -/
def pumpedState (P : Params) (n : Nat) : CompilerState :=
  { toCompile := List.replicate n ⟨"a.tex", none⟩,
    compiled := [],
    plugins := insertPlugin [] (P.crc32 (P.getExtension "a.tex")) 1,
    semaphore := n,
    finished := false }

/-- Registering the plugin from the constructed state lands on the pumped
state with no pending entries. -/
theorem pumped_zero (P : Params) :
    addPluginFn P initialState 1 [P.getExtension "a.tex"] = pumpedState P 0 := by
  unfold addPluginFn pumpedState initialState
  simp

/-- Each further change notification for `a.tex` appends one entry. -/
theorem onFileChanged_pumped (P : Params) (n : Nat) :
    onFileChangedFn P (pumpedState P n) "a.tex" = pumpedState P (n + 1) := by
  unfold onFileChangedFn pumpedState
  have hpre : ".lumix".isPrefixOf "a.tex" = false := by decide
  simp [hpre, insertPlugin, lookupPlugin, List.replicate_succ']

/-- Every pumped state is reachable. -/
theorem pumped_reachable (P : Params) (n : Nat) :
    Reachable P (pumpedState P n) := by
  induction n with
  | zero =>
      have h : Step P initialState
          (addPluginFn P initialState 1 [P.getExtension "a.tex"]) :=
        Step.addPlugin initialState 1 [P.getExtension "a.tex"]
      rw [pumped_zero] at h
      exact Relation.ReflTransGen.single h
  | succ n ih =>
      have h : Step P (pumpedState P n)
          (onFileChangedFn P (pumpedState P n) "a.tex") :=
        Step.fileChanged (pumpedState P n) "a.tex"
      rw [onFileChanged_pumped] at h
      exact Relation.ReflTransGen.tail ih h

/-- For every bound there is a reachable state whose pending-entry count
exceeds it. -/
theorem toCompile_grows_past (P : Params) (c : Nat) :
    ∃ st : CompilerState, Reachable P st ∧ c < st.toCompile.length :=
  ⟨pumpedState P (c + 1), pumped_reachable P (c + 1), by
    simp only [pumpedState, List.length_replicate]
    omega⟩

/-- C4, counterexample: no fixed capacity bounds the to-compile list; with
the concrete engine parameters, for every candidate capacity some reachable
state holds more pending entries. -/
theorem toCompile_bounded_refuted :
    ¬ ∃ c : Nat, ∀ st : CompilerState,
        Reachable cParams st → st.toCompile.length ≤ c := by
  rintro ⟨c, hc⟩
  obtain ⟨st, hr, hl⟩ := toCompile_grows_past cParams c
  have := hc st hr
  omega

/-- C4, amended: the producer/consumer queue between the editor and the
compile worker is unbounded: `m_to_compile` is a dynamically growing array,
and for every capacity some reachable state of the compiler holds more
pending entries than that capacity. -/
theorem toCompile_unbounded (P : Params) (c : Nat) :
    ∃ st : CompilerState, Reachable P st ∧ c < st.toCompile.length :=
  toCompile_grows_past P c

/-- Draining a compiled list whose entries all carry a resource or a valid
path performs one effect per entry, back to front, and empties the list. -/
theorem updateDrain_proper (l : List CompileEntry)
    (h : ∀ e ∈ l, e.resource.isSome = true ∨ e.path.isValid = true) :
    updateDrain l = (l.reverse.map effectOf, []) := by
  induction l using List.reverseRecOn with
  | nil => unfold updateDrain; rfl
  | append_singleton xs x ih =>
      have hxs : ∀ e ∈ xs, e.resource.isSome = true ∨ e.path.isValid = true :=
        fun e he => h e (by simp [he])
      have hx := h x (by simp)
      unfold updateDrain
      split
      · next heq =>
          rw [List.getLast?_concat] at heq
          cases heq
      · next e heq =>
          rw [List.getLast?_concat] at heq
          injection heq with heq
          subst heq
          rw [List.dropLast_concat, ih hxs]
          rcases hres : x.resource with _ | r
          · have hval : x.path.isValid = true := by
              rcases hx with hx2 | hx2
              · rw [hres] at hx2
                simp at hx2
              · exact hx2
            simp [hres, hval, effectOf]
          · simp [hres, effectOf]

/-- C5: when every entry of the compiled list carries a resource or a valid
path, `update` drains the list completely, performing `continueLoad` for
entries with a resource and `reload` for entries with only a valid path, in
pop order; it touches nothing else, and `popCompiledResource` on an empty
compiled list returns the default (null resource, invalid path) entry
without changing the state, which is exactly what stops the loop. -/
theorem update_drains_compiled (st : CompilerState)
    (h : ∀ e ∈ st.compiled, e.resource.isSome = true ∨ e.path.isValid = true) :
    (updateFn st).2.compiled = [] ∧
    (updateFn st).1 = st.compiled.reverse.map effectOf ∧
    (updateFn st).2.toCompile = st.toCompile ∧
    (updateFn st).2.plugins = st.plugins ∧
    (updateFn st).2.semaphore = st.semaphore ∧
    popCompiledResource { st with compiled := [] } =
      (CompileEntry.default, { st with compiled := [] }) := by
  have hd := updateDrain_proper st.compiled h
  refine ⟨?_, ?_, rfl, rfl, rfl, ?_⟩
  · simp [updateFn, hd]
  · simp [updateFn, hd]
  · simp [popCompiledResource]

/-- Witness for C5 at a compiled list holding one resource entry and one
path entry. -/
theorem update_drains_compiled_witness :
    ((updateFn { initialState with
        compiled := [⟨"", some ⟨1, "a.tex"⟩⟩, ⟨"p.tex", none⟩] }).2.compiled
        = [] ∧
     (updateFn { initialState with
        compiled := [⟨"", some ⟨1, "a.tex"⟩⟩, ⟨"p.tex", none⟩] }).1 =
       ({ initialState with
        compiled := [⟨"", some ⟨1, "a.tex"⟩⟩, ⟨"p.tex", none⟩] } :
          CompilerState).compiled.reverse.map effectOf ∧
     (updateFn { initialState with
        compiled := [⟨"", some ⟨1, "a.tex"⟩⟩, ⟨"p.tex", none⟩] }).2.toCompile =
       ({ initialState with
        compiled := [⟨"", some ⟨1, "a.tex"⟩⟩, ⟨"p.tex", none⟩] } :
          CompilerState).toCompile ∧
     (updateFn { initialState with
        compiled := [⟨"", some ⟨1, "a.tex"⟩⟩, ⟨"p.tex", none⟩] }).2.plugins =
       ({ initialState with
        compiled := [⟨"", some ⟨1, "a.tex"⟩⟩, ⟨"p.tex", none⟩] } :
          CompilerState).plugins ∧
     (updateFn { initialState with
        compiled := [⟨"", some ⟨1, "a.tex"⟩⟩, ⟨"p.tex", none⟩] }).2.semaphore =
       ({ initialState with
        compiled := [⟨"", some ⟨1, "a.tex"⟩⟩, ⟨"p.tex", none⟩] } :
          CompilerState).semaphore ∧
     popCompiledResource { ({ initialState with
        compiled := [⟨"", some ⟨1, "a.tex"⟩⟩, ⟨"p.tex", none⟩] } :
          CompilerState) with compiled := [] } =
       (CompileEntry.default, { ({ initialState with
        compiled := [⟨"", some ⟨1, "a.tex"⟩⟩, ⟨"p.tex", none⟩] } :
          CompilerState) with compiled := [] })) :=
  update_drains_compiled
    { initialState with
        compiled := [⟨"", some ⟨1, "a.tex"⟩⟩, ⟨"p.tex", none⟩] }
    (by decide)

/-- C6, counterexample: the destructor's lock trace is not guarded: line 84
emplaces onto `m_to_compile` while no mutex is held. -/
theorem destructor_access_unguarded : guarded destructorTrace = false := by
  decide

/-- C6, amended: every access to the to-compile list, the compiled list and
the plugin map by `onFileChanged`, `onBeforeLoad`, `addPlugin`, `compile`,
the worker task and `update` happens under the corresponding spin mutex, but
the destructor's emplace on the to-compile list happens while holding no
mutex at all. -/
theorem lock_discipline_except_destructor :
    guarded onFileChangedTrace = true ∧
    guarded onBeforeLoadTrace = true ∧
    guarded addPluginTrace = true ∧
    guarded compileTrace = true ∧
    guarded workerTrace = true ∧
    guarded updateTrace = true ∧
    guarded destructorTrace = false := by
  decide

/-- C7: `destroyEntity` records the destroyed index on the free-slot list
and leaves both storage arrays alone; when the free-slot list is non-empty,
`createEntity` reuses its first recorded slot, grows neither array, and every
other index keeps its position and rotation. -/
theorem universe_recycles_slots (u : Universe) (index s : Nat)
    (rest : List Nat) (h : u.m_free_slots = s :: rest) :
    (destroyEntity u index).m_free_slots = index :: u.m_free_slots ∧
    (destroyEntity u index).m_positions = u.m_positions ∧
    (destroyEntity u index).m_rotations = u.m_rotations ∧
    (createEntity u).1 = s ∧
    (createEntity u).2.m_free_slots = rest ∧
    (createEntity u).2.m_positions.length = u.m_positions.length ∧
    (createEntity u).2.m_rotations.length = u.m_rotations.length ∧
    (∀ j : Nat, j ≠ s →
      (createEntity u).2.m_positions[j]? = u.m_positions[j]?) ∧
    (∀ j : Nat, j ≠ s →
      (createEntity u).2.m_rotations[j]? = u.m_rotations[j]?) := by
  rcases u with ⟨pos, rot, free⟩
  simp only at h
  subst h
  refine ⟨rfl, rfl, rfl, rfl, rfl, ?_, ?_, ?_, ?_⟩
  · simp [createEntity]
  · simp [createEntity]
  · intro j hj
    simp only [createEntity]
    exact List.getElem?_set_ne (Ne.symm hj)
  · intro j hj
    simp only [createEntity]
    exact List.getElem?_set_ne (Ne.symm hj)

/-- A concrete two-slot universe whose slot 1 has been freed. -/
def cUniverse : Universe :=
  ⟨[⟨1, 2, 3⟩, ⟨4, 5, 6⟩], [⟨0, 0, 0, 1⟩, ⟨0, 1, 0, 0⟩], [1]⟩

/-- Witness for C7 at the concrete universe. -/
theorem universe_recycles_slots_witness :
    (destroyEntity cUniverse 0).m_free_slots = 0 :: cUniverse.m_free_slots ∧
    (destroyEntity cUniverse 0).m_positions = cUniverse.m_positions ∧
    (destroyEntity cUniverse 0).m_rotations = cUniverse.m_rotations ∧
    (createEntity cUniverse).1 = 1 ∧
    (createEntity cUniverse).2.m_free_slots = [] ∧
    (createEntity cUniverse).2.m_positions.length =
      cUniverse.m_positions.length ∧
    (createEntity cUniverse).2.m_rotations.length =
      cUniverse.m_rotations.length ∧
    (∀ j : Nat, j ≠ 1 →
      (createEntity cUniverse).2.m_positions[j]? = cUniverse.m_positions[j]?) ∧
    (∀ j : Nat, j ≠ 1 →
      (createEntity cUniverse).2.m_rotations[j]? =
        cUniverse.m_rotations[j]?) :=
  universe_recycles_slots cUniverse 0 1 [] rfl

/-- C8: `getMeta` returns -1 exactly when the `.meta` file cannot be opened
or the read fails; on success it returns `min(size, file size)` together
with that many bytes of the file, and the returned count never exceeds the
caller's buffer size. -/
theorem getMeta_bounded (mfs : MetaFS) (metaPathOf : String → String)
    (res : Pth) (size : Int) (hsize : 0 ≤ size) :
    ((getMetaFn mfs metaPathOf res size).1 = -1 ↔
      mfs.contents (metaPathOf res) = none ∨ mfs.readOk = false) ∧
    (∀ data, mfs.contents (metaPathOf res) = some data →
      mfs.readOk = true →
      (getMetaFn mfs metaPathOf res size).1 =
        min size (Int.ofNat data.length) ∧
      (getMetaFn mfs metaPathOf res size).2 =
        data.take (min size (Int.ofNat data.length)).toNat) ∧
    (getMetaFn mfs metaPathOf res size).1 ≤ size := by
  rcases hc : mfs.contents (metaPathOf res) with _ | data
  · have he : getMetaFn mfs metaPathOf res size = (-1, []) := by
      unfold getMetaFn
      rw [hc]
    rw [he]
    refine ⟨by simp, ?_, by simp; omega⟩
    intro d hd
    cases hd
  · by_cases hro : mfs.readOk = true
    · have he : getMetaFn mfs metaPathOf res size =
          (min size (Int.ofNat data.length),
           data.take (min size (Int.ofNat data.length)).toNat) := by
        unfold getMetaFn
        rw [hc]
        simp [hro]
      rw [he]
      refine ⟨?_, ?_, min_le_left _ _⟩
      · constructor
        · intro h1
          exfalso
          have hlen : (0 : Int) ≤ Int.ofNat data.length :=
            Int.ofNat_nonneg data.length
          have hmin : (0 : Int) ≤ min size (Int.ofNat data.length) :=
            le_min hsize hlen
          have h1b : min size (Int.ofNat data.length) = -1 := h1
          rw [h1b] at hmin
          exact absurd hmin (by norm_num)
        · intro h1
          rcases h1 with h1 | h1
          · cases h1
          · rw [hro] at h1
            cases h1
      · intro d hd hr
        injection hd with hd
        subst hd
        exact ⟨rfl, rfl⟩
    · have hro2 : mfs.readOk = false := by
        simpa using hro
      have he : getMetaFn mfs metaPathOf res size = (-1, []) := by
        unfold getMetaFn
        rw [hc]
        simp [hro2]
      rw [he]
      refine ⟨by simp [hro2], ?_, by simp; omega⟩
      intro d hd hr
      rw [hro2] at hr
      cases hr

/-- A concrete meta-file system whose single file holds three bytes. -/
def cMetaFS : MetaFS := ⟨fun _ => some [10, 20, 30], true⟩

/-- Witness for C8 on the concrete meta file with a two-byte buffer. -/
theorem getMeta_bounded_witness :
    ((getMetaFn cMetaFS (fun s => s ++ ".meta") "a.tex" 2).1 = -1 ↔
      cMetaFS.contents ((fun s => s ++ ".meta") "a.tex") = none ∨
        cMetaFS.readOk = false) ∧
    (∀ data, cMetaFS.contents ((fun s => s ++ ".meta") "a.tex") = some data →
      cMetaFS.readOk = true →
      (getMetaFn cMetaFS (fun s => s ++ ".meta") "a.tex" 2).1 =
        min 2 (Int.ofNat data.length) ∧
      (getMetaFn cMetaFS (fun s => s ++ ".meta") "a.tex" 2).2 =
        data.take (min 2 (Int.ofNat data.length)).toNat) ∧
    (getMetaFn cMetaFS (fun s => s ++ ".meta") "a.tex" 2).1 ≤ 2 :=
  getMeta_bounded cMetaFS (fun s => s ++ ".meta") "a.tex" 2 (by omega)

/-- Looking a key up after an insert: the inserted key maps to the new
value; every other key is unaffected. -/
theorem lookupPlugin_insert (m : List (Nat × Nat)) (k2 v k : Nat) :
    lookupPlugin (insertPlugin m k2 v) k =
      if k2 = k then some v else lookupPlugin m k := by
  induction m with
  | nil => simp [insertPlugin, lookupPlugin]
  | cons p rest ih =>
      rcases p with ⟨k3, v3⟩
      by_cases h32 : k3 = k2
      · subst h32
        by_cases h3k : k3 = k
        · subst h3k
          simp [insertPlugin, lookupPlugin]
        · simp [insertPlugin, lookupPlugin, h3k]
      · by_cases h3k : k3 = k
        · subst h3k
          have h2k : ¬ k2 = k3 := fun hh => h32 hh.symm
          simp [insertPlugin, lookupPlugin, h32, h2k]
        · simp [insertPlugin, lookupPlugin, h32, h3k, ih]

/-- A registered hash stays registered across `addPlugin`'s insertion loop. -/
theorem lookupPlugin_foldl_insert_isSome (P : Params) (plugin : Nat)
    (exts : List String) (m : List (Nat × Nat)) (k : Nat)
    (h : (lookupPlugin m k).isSome = true) :
    (lookupPlugin
        (exts.foldl (fun m2 e => insertPlugin m2 (P.crc32 e) plugin) m)
        k).isSome = true := by
  induction exts generalizing m with
  | nil => simpa using h
  | cons x xs ih =>
      simp only [List.foldl]
      apply ih
      rw [lookupPlugin_insert]
      by_cases hk : P.crc32 x = k
      · simp [hk]
      · simp [hk, h]

/-- `onFileChanged` never touches the plugin map. -/
theorem onFileChanged_plugins (P : Params) (st : CompilerState)
    (path : String) : (onFileChangedFn P st path).plugins = st.plugins := by
  unfold onFileChangedFn
  by_cases h1 : ".lumix".isPrefixOf path
  · simp [h1]
  · by_cases h2 :
      (lookupPlugin st.plugins (P.crc32 (P.getExtension path))).isNone
    · simp [h1, h2]
    · simp [h1, h2]

/-- `onBeforeLoad` never touches the plugin map. -/
theorem onBeforeLoad_plugins (P : Params) (st : CompilerState)
    (res : Resource) : (onBeforeLoadFn P st res).2.plugins = st.plugins := by
  rw [onBeforeLoad_compiles_iff_stale]
  split
  · rfl
  · rfl

/-- The worker loop never touches the plugin map. -/
theorem workerStep_plugins (st : CompilerState) :
    (workerStepFn st).plugins = st.plugins := by
  unfold workerStepFn workerTake
  dsimp only
  split
  · rfl
  · split
    · rfl
    · rfl

/-- C9: `removePlugin` fires its `ASSERT(false)` and leaves the whole state,
its plugin map included, untouched; and no step of the compiler ever drops a
registered extension hash, so a registration made by `addPlugin` persists. -/
theorem removePlugin_asserts_and_registration_persists (P : Params)
    (st st2 : CompilerState) (plugin k : Nat) (hstep : Step P st st2)
    (hreg : (lookupPlugin st.plugins k).isSome = true) :
    (removePluginFn st plugin).1 = true ∧
    (removePluginFn st plugin).2 = st ∧
    (lookupPlugin st2.plugins k).isSome = true := by
  refine ⟨rfl, rfl, ?_⟩
  cases hstep with
  | fileChanged path =>
      rw [onFileChanged_plugins]
      exact hreg
  | beforeLoad res =>
      rw [onBeforeLoad_plugins]
      exact hreg
  | addPlugin plugin2 exts =>
      exact lookupPlugin_foldl_insert_isSome P plugin2 exts st.plugins k hreg
  | removePlugin plugin2 => exact hreg
  | worker h1 h2 =>
      rw [workerStep_plugins]
      exact hreg
  | update => exact hreg

/-- Witness for C9: an `update` step from the state with one registered
plugin keeps the registration, and `removePlugin` asserts and changes
nothing. -/
theorem removePlugin_asserts_witness :
    (removePluginFn cStPlugins 1).1 = true ∧
    (removePluginFn cStPlugins 1).2 = cStPlugins ∧
    (lookupPlugin (updateFn cStPlugins).2.plugins 0).isSome = true :=
  removePlugin_asserts_and_registration_persists cParams cStPlugins
    (updateFn cStPlugins).2 1 0 (Step.update cStPlugins) (by decide)

/-- C10: under the in-bounds precondition the accessors return the stored
element and leave the universe unchanged; the total embedding of the
unchecked indexing is defined only under that precondition. -/
theorem get_position_rotation_in_bounds (u : Universe) (i : Nat)
    (hp : i < u.m_positions.length) (hr : i < u.m_rotations.length) :
    getPosition u i hp = (u.m_positions.get ⟨i, hp⟩, u) ∧
    getRotation u i hr = (u.m_rotations.get ⟨i, hr⟩, u) :=
  ⟨rfl, rfl⟩

/-- Witness for C10 at slot 0 of the concrete universe. -/
theorem get_position_rotation_in_bounds_witness :
    getPosition cUniverse 0 (by decide) =
      (cUniverse.m_positions.get ⟨0, by decide⟩, cUniverse) ∧
    getRotation cUniverse 0 (by decide) =
      (cUniverse.m_rotations.get ⟨0, by decide⟩, cUniverse) :=
  get_position_rotation_in_bounds cUniverse 0 (by decide) (by decide)

end LumixSpec
